import Mathlib

/-
  Verification development for the influxdb-agent plugin engine
  (src/apps/agent/plugin.go, and the plugin-registry code of the agent).

  Modelling conventions.  Strings from the Go source are handled as
  `List Char`; the inputs of interest are ASCII, where Go's byte indexing
  and character indexing agree.  `float64` values are modelled as `ℚ`
  (the numeric literals the parser meets are exact in both), wall-clock
  instants as `ℚ` seconds.  A Go function that can return an error or
  panic is modelled with `GoResult`.  Go maps are association lists with
  replace-on-insert (`mset`), so keys stay unique; map iteration order,
  which Go leaves unspecified, is the list order, and no theorem below
  depends on it beyond the set of entries.  `json.Unmarshal` into
  `[]*errplane.JsonPoints` and the regular-expression matching of
  `calculate_rates` patterns are external library calls and enter the
  model as explicit function parameters (`decode`, `eligible`).
-/

namespace Agent

/-- Result of running a Go function: normal value, returned error, or
runtime panic. -/
inductive GoResult (α : Type) : Type where
  | ok : α → GoResult α
  | err : GoResult α
  | panicked : GoResult α
deriving DecidableEq, Repr

/-- Whitespace as trimmed by strings.TrimSpace (ASCII fragment). -/
def isSpaceChar (c : Char) : Bool :=
  c = ' ' ∨ c = '\t' ∨ c = '\n' ∨ c = '\r'

/-- Model of strings.TrimSpace on a character list. -/
def trimSp (cs : List Char) : List Char :=
  ((cs.dropWhile isSpaceChar).reverse.dropWhile isSpaceChar).reverse

/-- Model of strings.Split with a one-character separator: always returns
at least one segment; a separator at the end yields a trailing empty
segment, as in Go. -/
def splitOnChar (sep : Char) : List Char → List (List Char)
  | [] => [[]]
  | c :: rest =>
    match splitOnChar sep rest with
    | [] => [[]]
    | cur :: others =>
      if c = sep then [] :: cur :: others else (c :: cur) :: others

/-- Assignment `m[k] = v` into a Go map modelled as an association list:
any existing binding of `k` is removed and the new one appended. -/
def mset {κ α : Type} [DecidableEq κ] (m : List (κ × α)) (k : κ) (v : α) :
    List (κ × α) :=
  (m.filter (fun p => p.1 ≠ k)) ++ [(k, v)]

/-- Numeric value of a list of decimal digit characters. -/
def digitsToNat (cs : List Char) : ℕ :=
  cs.foldl (fun a c => 10 * a + (c.toNat - 48)) 0

/-- Not an exponent marker of a decimal float literal. -/
def notExp (c : Char) : Bool := !(c == 'e' || c == 'E')

/-- Mantissa of a decimal literal: digits with an optional fractional
part after a dot.  Model of the decimal core of strconv.ParseFloat (hex
floats, inf/NaN and digit-separating underscores fall outside the
fragment the agent's plugin lines use; on that fragment the model agrees
with Go). -/
def parseMantissa (cs : List Char) : Option ℚ :=
  match cs.dropWhile Char.isDigit with
  | [] =>
    if (cs.takeWhile Char.isDigit).isEmpty then none
    else some ((digitsToNat (cs.takeWhile Char.isDigit) : ℚ))
  | c :: fr =>
    if c = '.' ∧ fr.all Char.isDigit ∧
        (¬(cs.takeWhile Char.isDigit).isEmpty ∨ ¬fr.isEmpty) then
      some ((digitsToNat (cs.takeWhile Char.isDigit) : ℚ) +
        (digitsToNat fr : ℚ) / (10 : ℚ) ^ fr.length)
    else none

/-- Exponent part after the `e`/`E` marker: optional sign and digits. -/
def parseExponent (cs : List Char) : Option ℤ :=
  let sgn : ℤ := if cs.headD ' ' = '-' then -1 else 1
  let ds := if cs.headD ' ' = '-' ∨ cs.headD ' ' = '+' then cs.tail else cs
  if ¬ds.isEmpty ∧ ds.all Char.isDigit then some (sgn * digitsToNat ds) else none

/-- Model of strconv.ParseFloat (64-bit) on the decimal fragment:
optional sign, decimal mantissa, optional decimal exponent. -/
def goParseFloat (cs0 : List Char) : Option ℚ :=
  let sgn : ℚ := if cs0.headD ' ' = '-' then -1 else 1
  let cs := if cs0.headD ' ' = '-' ∨ cs0.headD ' ' = '+' then cs0.tail else cs0
  match parseMantissa (cs.takeWhile notExp), cs.dropWhile notExp with
  | some m, [] => some (sgn * m)
  | some m, _ :: ex =>
    match parseExponent ex with
    | some e => some (sgn * m * (10 : ℚ) ^ e)
    | none => none
  | none, _ => none

/-- One decoded point of an errplane JSON write (errplane-go JsonPoint):
a value and its dimensions.  Per-point timestamps play no role in the
claims and are omitted. -/
structure JsonPoint where
  value : ℚ
  dimensions : List (String × String)
deriving DecidableEq, Repr

/-- One decoded metric write of an errplane JSON array
(errplane-go JsonPoints): a metric name and its points. -/
structure JsonPoints where
  name : String
  points : List JsonPoint
deriving DecidableEq, Repr

/-- plugin.go line 52: `OK PluginStateOutput = iota`.  PluginStateOutput
is an integer type in Go and `PluginStateOutput(exitStatus)` is a plain
cast, so the model keeps the whole of `Int`. -/
def OK : Int := 0

/-- plugin.go line 53. -/
def WARNING : Int := 1

/-- plugin.go line 54. -/
def CRITICAL : Int := 2

/-- plugin.go line 55. -/
def UNKNOWN : Int := 3

/-- plugin.go lines 36-49, the `String` method of PluginStateOutput:
`none` models the `panic("WTF unknown state")` on a state outside the
four enum values. -/
def stateString (p : Int) : Option String :=
  if p = OK then some "ok"
  else if p = WARNING then some "warning"
  else if p = CRITICAL then some "critical"
  else if p = UNKNOWN then some "unknown"
  else none

/-- plugin.go lines 64-70: the structured result of one plugin
invocation.  `state` is the Go PluginStateOutput integer; `points` and
`metrics` are the two optional payloads (a Go nil slice/map is `none`);
`timestamp` is the `time.Now()` capture in seconds. -/
structure PluginOutput where
  state : Int
  msg : String
  points : Option (List JsonPoints)
  metrics : Option (List (String × ℚ))
  timestamp : ℚ
deriving DecidableEq, Repr

/-- The tokenizer states of plugin.go lines 300-305. -/
inductive ParserSt : Type where
  | START : ParserSt
  | IN_QUOTED_FIELD : ParserSt
  | IN_VALUE : ParserSt
deriving DecidableEq, Repr

/-- The mutable locals of the tokenizer loop, plugin.go lines 307-311. -/
structure TkState where
  st : ParserSt
  metricName : List Char
  value : List Char
  token : List Char
  metrics : List (List Char × List Char)
deriving DecidableEq, Repr

/-- One non-lookahead iteration of the tokenizer loop of
parseNagiosOutput, plugin.go lines 313-363: the quote, `=`, space and
default cases.  The quote-in-quoted-field case here is the one where the
lookahead at line 320 failed (no second quote follows), in which Go does
nothing. -/
def tkStep (c : Char) (s : TkState) : TkState :=
  if c = '\'' then
    match s.st with
    | .IN_QUOTED_FIELD => s
    | .IN_VALUE =>
      ⟨.IN_QUOTED_FIELD, [], [], [],
        mset s.metrics s.metricName (s.value ++ s.token)⟩
    | .START => { s with st := .IN_QUOTED_FIELD }
  else if c = '=' then
    match s.st with
    | .IN_VALUE =>
      ⟨.IN_VALUE, s.token, [], [], mset s.metrics s.metricName s.value⟩
    | .START =>
      { s with st := .IN_VALUE, metricName := s.token, value := [], token := [] }
    | .IN_QUOTED_FIELD =>
      { s with st := .IN_VALUE, metricName := s.token, token := [] }
  else if c = ' ' then
    match s.st with
    | .IN_VALUE => { s with value := s.value ++ ' ' :: s.token, token := [] }
    | .IN_QUOTED_FIELD =>
      { s with metricName := s.metricName ++ ' ' :: s.token, token := [] }
    | .START => { s with token := [] }
  else { s with token := s.token ++ [c] }

/-- The tokenizer loop of plugin.go lines 313-364.  A doubled quote
inside a quoted field appends a literal quote to the token and skips both
characters, mirroring lines 320-323 (the manual `i++`); every other
character is one `tkStep`. -/
def tokenize : List Char → TkState → TkState
  | [], s => s
  | [c], s => tokenize [] (tkStep c s)
  | c1 :: c2 :: rest, s =>
    if c1 = '\'' ∧ c2 = '\'' ∧ s.st = .IN_QUOTED_FIELD then
      tokenize rest { s with token := s.token ++ ['\''] }
    else tokenize (c2 :: rest) (tkStep c1 s)

/-- The token map a metrics segment produces: the loop of lines 313-364
followed by the final `metrics[metricName] = value + token.String()` of
line 366. -/
def tokenizeMetrics (metricsLine : List Char) : List (List Char × List Char) :=
  let f := tokenize metricsLine ⟨.START, [], [], [], []⟩
  mset f.metrics f.metricName (f.value ++ f.token)

/-- The unit-of-measure suffix stripping of plugin.go lines 376-394,
written on the reversed value so the trailing character is the head.
Reading `value[len(value)-2]` when the value is the single character `s`
or `B` is the Go out-of-range panic, modelled by `GoResult.panicked`. -/
def stripUnit (v : List Char) : GoResult (List Char) :=
  match v.reverse with
  | [] => .ok []
  | u :: rest =>
    if u = 's' then
      match rest with
      | [] => .panicked
      | c :: rest2 =>
        if c = 'u' ∨ c = 'm' then .ok rest2.reverse
        else .ok (c :: rest2).reverse
    else if u = 'B' then
      match rest with
      | [] => .panicked
      | c :: rest2 =>
        if c = 'K' ∨ c = 'M' ∨ c = 'G' then .ok rest2.reverse
        else .ok (c :: rest2).reverse
    else if u = '%' ∨ u = 'c' then .ok rest.reverse
    else .ok (u :: rest).reverse

/-- One iteration of the numeric loop of plugin.go lines 370-401 on an
already `;`-truncated value: skip empty values (`ok none`), strip the
unit suffix, parse the remainder as a float.  A value the float parser
rejects yields `ok none`, modelling the assign-then-delete of lines
397-400 (the metric is dropped, the loop continues). -/
def reduceTruncated (v1 : List Char) : GoResult (Option ℚ) :=
  if v1.isEmpty then .ok none
  else
    match stripUnit v1 with
    | .panicked => .panicked
    | .err => .err
    | .ok v2 => .ok (goParseFloat v2)

/-- The full per-entry value reduction of plugin.go lines 371-401:
`strings.Split(strings.TrimSpace(value), ";")[0]`, then
`reduceTruncated`. -/
def reduceValue (v : List Char) : GoResult (Option ℚ) :=
  reduceTruncated ((splitOnChar ';' (trimSp v)).headD [])

/-- The numeric loop of plugin.go lines 368-402 over the token map:
builds `metricsMap`, propagating a panic from any entry. -/
def buildMetricsMap : List (List Char × List Char) → GoResult (List (String × ℚ))
  | [] => .ok []
  | (k, v) :: rest =>
    match reduceValue v with
    | .panicked => .panicked
    | .err => .err
    | .ok none => buildMetricsMap rest
    | .ok (some q) =>
      match buildMetricsMap rest with
      | .panicked => .panicked
      | .err => .err
      | .ok m => .ok ((String.mk k, q) :: m)

/-- plugin.go lines 281-405, parseNagiosOutput.  `exitStatus` is the
value of `cmdState.ExitStatus()`; `now` is the `time.Now()` reading at
the return sites. -/
def parseNagiosOutput (exitStatus : Int) (firstLine : String) (now : ℚ) :
    GoResult PluginOutput :=
  let line := trimSp firstLine.data
  let statusAndMetrics := splitOnChar '|' line
  if statusAndMetrics.length = 1 ∨ statusAndMetrics.length = 2 then
    let status := String.mk (trimSp (statusAndMetrics.headD []))
    if statusAndMetrics.length = 1 then
      .ok ⟨exitStatus, status, none, none, now⟩
    else
      let metricsLine := trimSp (statusAndMetrics.getD 1 [])
      match buildMetricsMap (tokenizeMetrics metricsLine) with
      | .panicked => .panicked
      | .err => .err
      | .ok m => .ok ⟨exitStatus, status, none, some m, now⟩
  else
    .err

/-- plugin.go lines 265-279, parseErrplaneOutput.  `decode` stands for
`json.Unmarshal` into `[]*errplane.JsonPoints` (`none` is a decoding
error); reading `statusAndMetrics[1]` on a line without `|` is the Go
out-of-range panic. -/
def parseErrplaneOutput (decode : String → Option (List JsonPoints))
    (exitStatus : Int) (firstLine : String) (now : ℚ) : GoResult PluginOutput :=
  let line := trimSp firstLine.data
  let statusAndMetrics := splitOnChar '|' line
  match statusAndMetrics.get? 1 with
  | none => .panicked
  | some seg =>
    let status := String.mk (trimSp (statusAndMetrics.headD []))
    let metric := String.mk (trimSp seg)
    match decode metric with
    | none => .err
    | some writes => .ok ⟨exitStatus, status, some writes, none, now⟩

/-- plugin.go lines 253-263, parsePluginOutput: dispatch on the plugin's
declared output format string. -/
def parsePluginOutput (decode : String → Option (List JsonPoints))
    (outputType : String) (exitStatus : Int) (firstLine : String) (now : ℚ) :
    GoResult PluginOutput :=
  if outputType = "nagios" then parseNagiosOutput exitStatus firstLine now
  else if outputType = "errplane" then
    parseErrplaneOutput decode exitStatus firstLine now
  else .err

/-- A concrete stand-in for json.Unmarshal that accepts exactly the empty
JSON array — the behaviour of the real decoder on the strings the
concrete theorems below feed it. -/
def decodeEmptyArray (s : String) : Option (List JsonPoints) :=
  if s = "[]" then some [] else none

/-- plugin.go lines 211-222 (nagios path): the `currentValues` map built
in runPlugin, restricted to the metric names matching one of the plugin's
`CalculateRates` patterns.  `eligible` stands for
`∃ pattern ∈ plugin.CalculateRates, regexp.MatchString pattern name`. -/
def currentValuesNagios (eligible : String → Bool)
    (metrics : List (String × ℚ)) : List (String × ℚ) :=
  metrics.filter (fun p => eligible p.1)

/-- plugin.go line 230: the OutputCache key `"<plugin>/<instance>"`. -/
def cacheKey (pluginName instanceName : String) : String :=
  pluginName ++ "/" ++ instanceName

/-- One iteration of the rate loop of plugin.go lines 240-248: for a
previous metric entry `p`, look its name up in `currentValues`; if
present, report `(currentValue - previousValue) / timeDiff` under the
metric's name, otherwise skip it (the `continue` at line 243). -/
def ratePoint (currentValues : List (String × ℚ)) (timeDiff : ℚ)
    (p : String × ℚ) : Option (String × ℚ) :=
  match (currentValues.lookup p.1 : Option ℚ) with
  | none => none
  | some currentValue => some (p.1, (currentValue - p.2) / timeDiff)

/-- plugin.go lines 230-249: the rate-of-change step of runPlugin against
the OutputCache, as a pure state transformer.  Returns the updated cache
(the deferred `OutputCache.Set(cacheKey, output, -1)` of line 232, which
runs on every path out of the function, also the early return at line
235) and the list of reported `.rate` values.  On a cache miss there are
no rates; on a hit the previous output's metric map is traversed with
`ratePoint` over `timeDiff = output.timestamp - previous.timestamp`
seconds. -/
def rateUpdate (cache : String → Option PluginOutput) (key : String)
    (output : PluginOutput) (currentValues : List (String × ℚ)) :
    (String → Option PluginOutput) × List (String × ℚ) :=
  let newCache := fun k => if k = key then some output else cache k
  match cache key with
  | none => (newCache, [])
  | some previousOutput =>
    (newCache,
      (previousOutput.metrics.getD []).filterMap
        (ratePoint currentValues (output.timestamp - previousOutput.timestamp)))

/-- The plugin metadata of the registry (utils PluginMetadata): name,
path, output format, rate-eligible metric patterns, custom flag. -/
structure PluginMetadata where
  name : String
  path : String
  output : String
  calculateRates : List String
  isCustom : Bool
deriving DecidableEq, Repr

/-- getAvailablePlugins, lines 136-141 of the agent registry file:
`for name, info := range customPlugins { info.IsCustom = true;
plugins[name] = info }` — custom plugins are merged into the bundled map
last, each overriding any same-named bundled entry wholesale. -/
def mergeCustomPlugins (plugins customPlugins : List (String × PluginMetadata)) :
    List (String × PluginMetadata) :=
  customPlugins.foldl
    (fun acc p => mset acc p.1 { p.2 with isCustom := true }) plugins

/-- A concrete previous-cycle output for the rate-tracker witness:
metric `x` valued 10 at instant 0. -/
def prevOutSample : PluginOutput := ⟨0, "ok", none, some [("x", 10)], 0⟩

/-- A concrete current-cycle output for the rate-tracker witness:
metric `x` valued 20 at instant 4. -/
def currOutSample : PluginOutput := ⟨0, "ok", none, some [("x", 20)], 4⟩

/-- All fields of a PluginOutput except the timestamp, for the
clock-independence statements. -/
def coreOf (o : PluginOutput) :
    Int × String × Option (List JsonPoints) × Option (List (String × ℚ)) :=
  (o.state, o.msg, o.points, o.metrics)

/-- `coreOf` mapped through a GoResult. -/
def coreR : GoResult PluginOutput →
    GoResult (Int × String × Option (List JsonPoints) × Option (List (String × ℚ)))
  | .ok o => .ok (coreOf o)
  | .err => .err
  | .panicked => .panicked

/-- The ten decimal digit characters. -/
def digitChars : List Char := ['0', '1', '2', '3', '4', '5', '6', '7', '8', '9']

/-- A decimal digit character is a digit for `Char.isDigit`, is not an
exponent marker, and is none of the sign characters. -/
theorem digit_char_facts {c : Char} (hc : c ∈ digitChars) :
    c.isDigit = true ∧ notExp c = true ∧ c ≠ '-' ∧ c ≠ '+' := by
  fin_cases hc <;> exact (by decide)

/-- The float model maps a nonempty string of decimal digits to its
numeric value. -/
theorem goParseFloat_digits (cs : List Char) (hne : cs ≠ [])
    (hd : ∀ c ∈ cs, c ∈ digitChars) :
    goParseFloat cs = some ((digitsToNat cs : ℚ)) := by
  obtain ⟨c0, cs', rfl⟩ : ∃ c0 cs', cs = c0 :: cs' := by
    cases cs with
    | nil => exact absurd rfl hne
    | cons a l => exact ⟨a, l, rfl⟩
  have h0 := digit_char_facts (hd c0 (List.mem_cons_self c0 cs'))
  have htw : List.takeWhile notExp (c0 :: cs') = c0 :: cs' :=
    List.takeWhile_eq_self_iff.2 (fun c hc => (digit_char_facts (hd c hc)).2.1)
  have hdw : List.dropWhile notExp (c0 :: cs') = [] :=
    List.dropWhile_eq_nil_iff.2 (fun c hc => (digit_char_facts (hd c hc)).2.1)
  have htw2 : List.takeWhile Char.isDigit (c0 :: cs') = c0 :: cs' :=
    List.takeWhile_eq_self_iff.2 (fun c hc => (digit_char_facts (hd c hc)).1)
  have hdw2 : List.dropWhile Char.isDigit (c0 :: cs') = [] :=
    List.dropWhile_eq_nil_iff.2 (fun c hc => (digit_char_facts (hd c hc)).1)
  have hh : (c0 :: cs').headD ' ' = c0 := rfl
  rw [goParseFloat]
  simp only [hh, h0.2.2, h0.2.2.2, if_neg, or_self, if_false]
  rw [htw, hdw, parseMantissa, hdw2]
  simp only [htw2, List.isEmpty_cons, if_false, Bool.false_eq_true]
  norm_num

/-- A nagios line whose trimmed form splits at `|` into exactly one
segment (no pipe present) parses to a status-only output. -/
theorem parseNagios_eval₁ (e : Int) (line : String) (t : ℚ) (s0 : List Char)
    (h : splitOnChar '|' (trimSp line.data) = [s0]) :
    parseNagiosOutput e line t =
      .ok ⟨e, String.mk (trimSp s0), none, none, t⟩ := by
  rw [parseNagiosOutput]
  simp [h]

/-- A nagios line whose trimmed form splits at `|` into exactly two
segments parses by running the perfdata pipeline on the trimmed second
segment. -/
theorem parseNagios_eval₂ (e : Int) (line : String) (t : ℚ) (s0 s1 : List Char)
    (h : splitOnChar '|' (trimSp line.data) = [s0, s1]) :
    parseNagiosOutput e line t =
      (match buildMetricsMap (tokenizeMetrics (trimSp s1)) with
        | .panicked => .panicked
        | .err => .err
        | .ok m => .ok ⟨e, String.mk (trimSp s0), none, some m, t⟩) := by
  rw [parseNagiosOutput]
  simp [h]

/-- A nagios line whose trimmed form splits at `|` into three or more
segments (two or more pipes) is rejected. -/
theorem parseNagios_eval₃ (e : Int) (line : String) (t : ℚ)
    (h : 3 ≤ (splitOnChar '|' (trimSp line.data)).length) :
    parseNagiosOutput e line t = .err := by
  rw [parseNagiosOutput]
  rw [if_neg]
  omega

/-- Unfolding `buildMetricsMap` over one entry whose value parses. -/
theorem buildMetricsMap_cons_some (k v : List Char) (q : ℚ)
    (rest : List (List Char × List Char)) (m : List (String × ℚ))
    (h : reduceValue v = .ok (some q)) (hm : buildMetricsMap rest = .ok m) :
    buildMetricsMap ((k, v) :: rest) = .ok ((String.mk k, q) :: m) := by
  simp only [buildMetricsMap, h, hm]

/-- Unfolding `buildMetricsMap` over one entry whose value is dropped. -/
theorem buildMetricsMap_cons_none (k v : List Char)
    (rest : List (List Char × List Char))
    (h : reduceValue v = .ok none) :
    buildMetricsMap ((k, v) :: rest) = buildMetricsMap rest := by
  simp only [buildMetricsMap, h]

/-- Unfolding `buildMetricsMap` over one entry whose value panics. -/
theorem buildMetricsMap_cons_panic (k v : List Char)
    (rest : List (List Char × List Char))
    (h : reduceValue v = .panicked) :
    buildMetricsMap ((k, v) :: rest) = .panicked := by
  simp only [buildMetricsMap, h]

/-- A value that truncates (at `;`) to `w`, strips its unit to `x`, and
float-parses to `q`, reduces to `q`. -/
theorem reduceValue_parsed (v w x : List Char) (q : ℚ)
    (h1 : (splitOnChar ';' (trimSp v)).headD [] = w)
    (h2 : w.isEmpty = false)
    (h3 : stripUnit w = .ok x)
    (h4 : goParseFloat x = some q) :
    reduceValue v = .ok (some q) := by
  rw [reduceValue, h1, reduceTruncated]
  rw [if_neg (by simp [h2])]
  simp only [h3, h4]

/-- A value whose unit-stripped remainder fails float parsing is
dropped. -/
theorem reduceValue_dropped (v w x : List Char)
    (h1 : (splitOnChar ';' (trimSp v)).headD [] = w)
    (h2 : w.isEmpty = false)
    (h3 : stripUnit w = .ok x)
    (h4 : goParseFloat x = none) :
    reduceValue v = .ok none := by
  rw [reduceValue, h1, reduceTruncated]
  rw [if_neg (by simp [h2])]
  simp only [h3, h4]

/-- The split model never returns an empty segment list. -/
theorem splitOnChar_ne_nil (sep : Char) (cs : List Char) :
    splitOnChar sep cs ≠ [] := by
  cases cs with
  | nil => simp [splitOnChar]
  | cons c rest =>
    rw [splitOnChar]
    rcases h : splitOnChar sep rest with _ | ⟨cur, others⟩
    · simp
    · by_cases hc : c = sep <;> simp [hc]

/-- Splitting a list that does not contain the separator yields the list
itself as the single segment. -/
theorem splitOnChar_of_not_mem (sep : Char) (cs : List Char) (h : sep ∉ cs) :
    splitOnChar sep cs = [cs] := by
  induction cs with
  | nil => rfl
  | cons c rest ih =>
    have hc : ¬c = sep := fun hcc => h (hcc ▸ List.mem_cons_self c rest)
    rw [splitOnChar, ih (fun hm => h (List.mem_cons_of_mem c hm))]
    simp [hc]

/-- The number of segments is the number of separators plus one. -/
theorem splitOnChar_length (sep : Char) (cs : List Char) :
    (splitOnChar sep cs).length = cs.count sep + 1 := by
  induction cs with
  | nil => rfl
  | cons c rest ih =>
    rcases h : splitOnChar sep rest with _ | ⟨cur, others⟩
    · exact absurd h (splitOnChar_ne_nil sep rest)
    · rw [h] at ih
      by_cases hc : c = sep
      · subst hc
        rw [splitOnChar, h]
        simp only [List.length_cons, List.count_cons_self] at ih ⊢
        simp
        omega
      · rw [splitOnChar, h]
        simp only [List.length_cons] at ih
        simp [hc, List.count_cons_of_ne (fun hh => hc hh.symm)]
        omega

/-- Trimming is idempotent. -/
theorem trimSp_idem (cs : List Char) : trimSp (trimSp cs) = trimSp cs := by
  have e : ∀ l : List Char,
      trimSp l = List.rdropWhile isSpaceChar (l.dropWhile isSpaceChar) :=
    fun l => rfl
  rw [e, e]
  have h1 : List.dropWhile isSpaceChar
      (List.rdropWhile isSpaceChar (List.dropWhile isSpaceChar cs)) =
      List.rdropWhile isSpaceChar (List.dropWhile isSpaceChar cs) := by
    rw [List.dropWhile_eq_self_iff]
    intro hl hp
    have hpre := List.rdropWhile_prefix isSpaceChar (List.dropWhile isSpaceChar cs)
    have hx : 0 < (List.dropWhile isSpaceChar cs).length :=
      lt_of_lt_of_le hl hpre.length_le
    have hg : (List.rdropWhile isSpaceChar
          (List.dropWhile isSpaceChar cs)).get ⟨0, hl⟩
        = (List.dropWhile isSpaceChar cs).get ⟨0, hx⟩ := by
      have := List.IsPrefix.getElem hpre (n := 0) (by simpa using hl)
      simpa [List.get_eq_getElem] using this
    rw [hg] at hp
    exact absurd hp
      ((List.dropWhile_eq_self_iff).mp (List.dropWhile_idempotent isSpaceChar cs) hx)
  rw [h1, List.rdropWhile_idempotent]

/-- The unit stripper never produces a Go error return. -/
theorem stripUnit_ne_err (v : List Char) : stripUnit v ≠ GoResult.err := by
  unfold stripUnit
  rcases v.reverse with _ | ⟨u, rest⟩
  · simp
  · by_cases h1 : u = 's'
    · rcases rest with _ | ⟨c, rest2⟩ <;> simp [h1] <;> split_ifs <;> simp
    · by_cases h2 : u = 'B'
      · rcases rest with _ | ⟨c, rest2⟩ <;> simp [h1, h2] <;> split_ifs <;> simp
      · simp only [h1, h2, if_false]
        split_ifs <;> simp

/-- The per-value reduction never produces a Go error return. -/
theorem reduceValue_ne_err (v : List Char) : reduceValue v ≠ GoResult.err := by
  rw [reduceValue, reduceTruncated]
  split_ifs
  · simp
  · rcases hsu : stripUnit ((splitOnChar ';' (trimSp v)).headD []) with _ | _ | _
    · simp
    · exact absurd hsu (stripUnit_ne_err _)
    · simp

/-- The metric-map builder never produces a Go error return. -/
theorem buildMetricsMap_ne_err (l : List (List Char × List Char)) :
    buildMetricsMap l ≠ GoResult.err := by
  induction l with
  | nil => simp [buildMetricsMap]
  | cons p rest ih =>
    obtain ⟨k, v⟩ := p
    rw [buildMetricsMap]
    rcases hrv : reduceValue v with q | _ | _
    · rcases q with _ | q
      · exact ih
      · rcases hb : buildMetricsMap rest with _ | _ | _ <;> simp_all
    · exact absurd hrv (reduceValue_ne_err v)
    · simp

/-- The float model on the single digit `1`. -/
theorem gpf_one : goParseFloat ['1'] = some 1 := by
  rw [goParseFloat_digits ['1'] (by decide) (by decide),
    show digitsToNat ['1'] = 1 from by decide]
  norm_num

/-- The float model on the single digit `2`. -/
theorem gpf_two : goParseFloat ['2'] = some 2 := by
  rw [goParseFloat_digits ['2'] (by decide) (by decide),
    show digitsToNat ['2'] = 2 from by decide]
  norm_num

/-- The clock reading passed to parseNagiosOutput influences only the
timestamp field. -/
theorem nagios_coreR_time_irrelevant (e : Int) (line : String) (t₁ t₂ : ℚ) :
    coreR (parseNagiosOutput e line t₁) = coreR (parseNagiosOutput e line t₂) := by
  rcases hs : splitOnChar '|' (trimSp line.data) with _ | ⟨a, rest⟩
  · exact absurd hs (splitOnChar_ne_nil _ _)
  · rcases rest with _ | ⟨b, rest2⟩
    · rw [parseNagios_eval₁ e line t₁ a hs, parseNagios_eval₁ e line t₂ a hs]
      rfl
    · rcases rest2 with _ | ⟨c, r3⟩
      · rw [parseNagios_eval₂ e line t₁ a b hs, parseNagios_eval₂ e line t₂ a b hs]
        rcases hb : buildMetricsMap (tokenizeMetrics (trimSp b)) with m | _ | _ <;>
          rfl
      · have h3 : 3 ≤ (splitOnChar '|' (trimSp line.data)).length := by
          rw [hs]
          simp only [List.length_cons]
          omega
        rw [parseNagios_eval₃ e line t₁ h3, parseNagios_eval₃ e line t₂ h3]

/-- The clock reading passed to parseErrplaneOutput influences only the
timestamp field. -/
theorem errplane_coreR_time_irrelevant
    (decode : String → Option (List JsonPoints)) (e : Int) (line : String)
    (t₁ t₂ : ℚ) :
    coreR (parseErrplaneOutput decode e line t₁) =
      coreR (parseErrplaneOutput decode e line t₂) := by
  rw [parseErrplaneOutput, parseErrplaneOutput]
  rcases hs : (splitOnChar '|' (trimSp line.data)).get? 1 with _ | seg
  · rfl
  · rcases hd : decode (String.mk (trimSp seg)) with _ | ws <;>
      simp [hd, coreR, coreOf]

/-- A successful nagios parse carries the clock reading it was given. -/
theorem nagios_timestamp_is_now (e : Int) (line : String) (t : ℚ)
    (o : PluginOutput) (h : parseNagiosOutput e line t = .ok o) :
    o.timestamp = t := by
  rcases hs : splitOnChar '|' (trimSp line.data) with _ | ⟨a, rest⟩
  · exact absurd hs (splitOnChar_ne_nil _ _)
  · rcases rest with _ | ⟨b, rest2⟩
    · rw [parseNagios_eval₁ e line t a hs] at h
      cases h
      rfl
    · rcases rest2 with _ | ⟨c, r3⟩
      · rw [parseNagios_eval₂ e line t a b hs] at h
        rcases hb : buildMetricsMap (tokenizeMetrics (trimSp b)) with m | _ | _ <;>
            rw [hb] at h
        · cases h
          rfl
        · exact absurd hb (buildMetricsMap_ne_err _)
        · cases h
      · have h3 : 3 ≤ (splitOnChar '|' (trimSp line.data)).length := by
          rw [hs]
          simp only [List.length_cons]
          omega
        rw [parseNagios_eval₃ e line t h3] at h
        cases h

/-- A successful errplane parse carries the clock reading it was given. -/
theorem errplane_timestamp_is_now
    (decode : String → Option (List JsonPoints)) (e : Int) (line : String)
    (t : ℚ) (o : PluginOutput) (h : parseErrplaneOutput decode e line t = .ok o) :
    o.timestamp = t := by
  rw [parseErrplaneOutput] at h
  rcases hs : (splitOnChar '|' (trimSp line.data)).get? 1 with _ | seg <;>
    rw [hs] at h
  · cases h
  · rcases hd : decode (String.mk (trimSp seg)) with _ | ws <;>
      simp only [hd] at h
    · cases h
    · cases h
      rfl

/-- Looking up the key just set by `mset` returns the new value. -/
theorem lookup_mset_self {κ α : Type} [DecidableEq κ]
    (m : List (κ × α)) (k : κ) (v : α) : (mset m k v).lookup k = some v := by
  induction m with
  | nil => simp [mset]
  | cons p rest ih =>
    obtain ⟨a, b⟩ := p
    by_cases hp : a = k
    · subst hp
      have he : mset ((a, b) :: rest) a v = mset rest a v := by
        simp [mset, List.filter_cons]
      rw [he, ih]
    · have he : mset ((a, b) :: rest) k v = (a, b) :: mset rest k v := by
        simp [mset, List.filter_cons, hp]
      rw [he, List.lookup_cons, beq_eq_false_iff_ne.mpr (fun hh => hp hh.symm)]
      exact ih

/-- Looking up a different key after `mset` is unchanged. -/
theorem lookup_mset_ne {κ α : Type} [DecidableEq κ]
    (m : List (κ × α)) (k : κ) (v : α) (j : κ) (h : j ≠ k) :
    (mset m k v).lookup j = m.lookup j := by
  induction m with
  | nil => simp [mset, List.lookup_cons, beq_eq_false_iff_ne.mpr h]
  | cons p rest ih =>
    obtain ⟨a, b⟩ := p
    by_cases hp : a = k
    · subst hp
      have he : mset ((a, b) :: rest) a v = mset rest a v := by
        simp [mset, List.filter_cons]
      rw [he, ih, List.lookup_cons, beq_eq_false_iff_ne.mpr h]
    · have he : mset ((a, b) :: rest) k v = (a, b) :: mset rest k v := by
        simp [mset, List.filter_cons, hp]
      rw [he, List.lookup_cons, List.lookup_cons]
      by_cases hj : j = a
      · subst hj
        rw [beq_self_eq_true]
      · rw [beq_eq_false_iff_ne.mpr hj]
        exact ih

/-- `mset` preserves key uniqueness. -/
theorem keys_mset_nodup {κ α : Type} [DecidableEq κ]
    (m : List (κ × α)) (k : κ) (v : α)
    (h : (m.map Prod.fst).Nodup) : ((mset m k v).map Prod.fst).Nodup := by
  rw [mset, List.map_append]
  refine List.Nodup.append ?_ (by simp) ?_
  · exact h.sublist (List.Sublist.map Prod.fst (List.filter_sublist m))
  · intro a ha hb
    simp only [List.map_cons, List.map_nil, List.mem_singleton] at hb
    subst hb
    obtain ⟨p, hpmem, hpk⟩ := List.mem_map.mp ha
    have := (List.mem_filter.mp hpmem).2
    simp only [decide_eq_true_eq] at this
    exact this (by simpa using hpk)

/-- Looking a name up in the rate-eligible restriction of a metric map:
present iff eligible and present in the full map. -/
theorem lookup_currentValues (el : String → Bool) (m : List (String × ℚ))
    (k : String) :
    (currentValuesNagios el m).lookup k =
      if el k then m.lookup k else none := by
  induction m with
  | nil => simp [currentValuesNagios]
  | cons p rest ih =>
    obtain ⟨a, b⟩ := p
    by_cases hel : el a
    · have he : currentValuesNagios el ((a, b) :: rest) =
          (a, b) :: currentValuesNagios el rest := by
        simp [currentValuesNagios, List.filter_cons, hel]
      rw [he, List.lookup_cons, List.lookup_cons]
      by_cases hk : k = a
      · subst hk
        rw [beq_self_eq_true, if_pos hel]
      · rw [beq_eq_false_iff_ne.mpr hk]
        exact ih
    · have he : currentValuesNagios el ((a, b) :: rest) =
          currentValuesNagios el rest := by
        simp [currentValuesNagios, List.filter_cons, hel]
      rw [he, ih, List.lookup_cons]
      by_cases hk : k = a
      · subst hk
        simp [hel]
      · rw [beq_eq_false_iff_ne.mpr hk]

/-- A name absent from the previous metric map is absent from the rate
list. -/
theorem lookup_filterMap_ratePoint_none (cv : List (String × ℚ)) (Δ : ℚ)
    (rest : List (String × ℚ)) (a : String) (ha : a ∉ rest.map Prod.fst) :
    (rest.filterMap (ratePoint cv Δ)).lookup a = none := by
  refine List.lookup_eq_none_iff.mpr (fun r hr => bne_iff_ne.mpr fun he => ?_)
  obtain ⟨q, hq, hfq⟩ := List.mem_filterMap.mp hr
  have hr1 : r.1 = q.1 := by
    rw [ratePoint] at hfq
    rcases hcq : cv.lookup q.1 with _ | c <;> rw [hcq] at hfq
    · cases hfq
    · cases hfq
      rfl
  exact ha (by rw [he, hr1]; exact List.mem_map.mpr ⟨q, hq, rfl⟩)

/-- Looking a name up in the rate list, for a previous metric map with
unique names: the rate exists exactly when the name is in both the
previous map and `cv`, and then equals the difference quotient. -/
theorem lookup_rates_bind (Δ : ℚ) (prevm cv : List (String × ℚ))
    (hnd : (prevm.map Prod.fst).Nodup) (k : String) :
    (prevm.filterMap (ratePoint cv Δ)).lookup k =
      (prevm.lookup k).bind fun pv =>
        (cv.lookup k).map fun c => (c - pv) / Δ := by
  induction prevm with
  | nil => rfl
  | cons p rest ih =>
    obtain ⟨a, b⟩ := p
    rw [List.map_cons, List.nodup_cons] at hnd
    obtain ⟨ha, hrest⟩ := hnd
    rw [List.filterMap_cons]
    rcases hcv : cv.lookup a with _ | c
    · rw [show ratePoint cv Δ (a, b) = none from by simp [ratePoint, hcv]]
      by_cases hk : k = a
      · subst hk
        rw [lookup_filterMap_ratePoint_none cv Δ rest k ha,
          List.lookup_cons_self, hcv]
        rfl
      · rw [List.lookup_cons, beq_eq_false_iff_ne.mpr hk]
        exact ih hrest
    · rw [show ratePoint cv Δ (a, b) = some (a, (c - b) / Δ) from by
        simp [ratePoint, hcv]]
      by_cases hk : k = a
      · subst hk
        rw [List.lookup_cons_self, List.lookup_cons_self, hcv]
        rfl
      · rw [List.lookup_cons, List.lookup_cons, beq_eq_false_iff_ne.mpr hk]
        exact ih hrest

/-- More exclusions for decimal digit characters: not whitespace, not a
semicolon, and none of the unit-suffix characters the numeric loop
inspects. -/
theorem digit_char_more {c : Char} (hc : c ∈ digitChars) :
    isSpaceChar c = false ∧ c ≠ ';' ∧ c ≠ 's' ∧ c ≠ 'B' ∧ c ≠ '%' ∧
      c ≠ 'c' ∧ c ≠ 'u' ∧ c ≠ 'm' ∧ c ≠ 'K' ∧ c ≠ 'M' ∧ c ≠ 'G' := by
  fin_cases hc <;> exact (by decide)

/-- Trimming a list free of whitespace characters is the identity. -/
theorem trimSp_no_space (l : List Char)
    (h : ∀ ch ∈ l, isSpaceChar ch = false) : trimSp l = l := by
  have d1 : ∀ (m : List Char), (∀ ch ∈ m, isSpaceChar ch = false) →
      m.dropWhile isSpaceChar = m := by
    intro m hm
    cases m with
    | nil => rfl
    | cons a tl =>
      rw [List.dropWhile_cons, hm a (List.mem_cons_self a tl)]
      simp
  show (((l.dropWhile isSpaceChar).reverse.dropWhile isSpaceChar)).reverse = l
  rw [d1 l h, d1 l.reverse (fun ch hch => h ch (List.mem_reverse.mp hch)),
    List.reverse_reverse]

/-- On a whitespace-free, semicolon-free value the `;`-truncation is the
identity and the reduction goes straight to the unit stripper. -/
theorem reduceValue_eq_reduceTruncated (v : List Char)
    (hsp : ∀ ch ∈ v, isSpaceChar ch = false) (hsemi : ';' ∉ v) :
    reduceValue v = reduceTruncated v := by
  rw [reduceValue, trimSp_no_space v hsp, splitOnChar_of_not_mem ';' v hsemi]
  rfl

/-- Unfolding `reduceTruncated` on a nonempty value whose unit strip
succeeds. -/
theorem reduceTruncated_ok (v w : List Char) (hv : v.isEmpty = false)
    (hsu : stripUnit v = .ok w) :
    reduceTruncated v = .ok (goParseFloat w) := by
  rw [reduceTruncated, if_neg (by simp [hv]), hsu]

/-- Stripping a two-character time unit. -/
theorem stripUnit_ms (cs : List Char) : stripUnit (cs ++ ['m', 's']) = .ok cs := by
  simp [stripUnit, List.reverse_append]

/-- Stripping the microseconds unit. -/
theorem stripUnit_us (cs : List Char) : stripUnit (cs ++ ['u', 's']) = .ok cs := by
  simp [stripUnit, List.reverse_append]

/-- Stripping a two-character byte unit. -/
theorem stripUnit_KB (cs : List Char) : stripUnit (cs ++ ['K', 'B']) = .ok cs := by
  simp [stripUnit, List.reverse_append]

/-- Stripping the megabyte unit. -/
theorem stripUnit_MB (cs : List Char) : stripUnit (cs ++ ['M', 'B']) = .ok cs := by
  simp [stripUnit, List.reverse_append]

/-- Stripping the gigabyte unit. -/
theorem stripUnit_GB (cs : List Char) : stripUnit (cs ++ ['G', 'B']) = .ok cs := by
  simp [stripUnit, List.reverse_append]

/-- Stripping the percent unit. -/
theorem stripUnit_pct (cs : List Char) : stripUnit (cs ++ ['%']) = .ok cs := by
  simp [stripUnit, List.reverse_append, List.reverse_reverse]

/-- Stripping the counter unit. -/
theorem stripUnit_ctr (cs : List Char) : stripUnit (cs ++ ['c']) = .ok cs := by
  simp [stripUnit, List.reverse_append, List.reverse_reverse]

/-- Stripping a one-character `s` unit from a nonempty value whose last
character is not `u`/`m`: positions shift so the inner switch looks at
the value's own last character. -/
theorem stripUnit_s (cs : List Char) (d : Char) (t : List Char)
    (hrev : cs.reverse = d :: t) (h1 : d ≠ 'u') (h2 : d ≠ 'm') :
    stripUnit (cs ++ ['s']) = .ok cs := by
  rw [stripUnit, List.reverse_append,
    show (['s'] : List Char).reverse = ['s'] from rfl, hrev]
  simp only [List.cons_append, List.nil_append]
  rw [if_pos trivial, if_neg (by simp [h1, h2]), ← hrev, List.reverse_reverse]

/-- Stripping a one-character `B` unit from a nonempty value whose last
character is not `K`/`M`/`G`. -/
theorem stripUnit_B (cs : List Char) (d : Char) (t : List Char)
    (hrev : cs.reverse = d :: t) (h1 : d ≠ 'K') (h2 : d ≠ 'M') (h3 : d ≠ 'G') :
    stripUnit (cs ++ ['B']) = .ok cs := by
  rw [stripUnit, List.reverse_append,
    show (['B'] : List Char).reverse = ['B'] from rfl, hrev]
  simp only [List.cons_append, List.nil_append]
  rw [if_pos trivial, ← hrev, List.reverse_reverse]
  simp [h1, h2, h3]

/-- A value ending in a character that is none of the unit characters is
left unchanged by the unit stripper. -/
theorem stripUnit_plain (cs : List Char) (d : Char) (t : List Char)
    (hrev : cs.reverse = d :: t) (h1 : d ≠ 's') (h2 : d ≠ 'B')
    (h3 : d ≠ '%') (h4 : d ≠ 'c') :
    stripUnit cs = .ok cs := by
  rw [stripUnit, hrev]
  simp only [h1, h2, if_false]
  rw [if_neg (by simp [h3, h4]), ← hrev, List.reverse_reverse]

/-- The per-token value reduction on a nonempty all-digit magnitude with
any recognized unit suffix (or none): whitespace-trim and `;`-truncation
leave it intact, the unit is stripped — a two-character unit as a whole,
else one character — and the digits parse to their numeric value. -/
theorem reduceValue_digits_unit (cs : List Char) (hne : cs ≠ [])
    (hd : ∀ ch ∈ cs, ch ∈ digitChars) (u : List Char)
    (hu : u ∈ [([] : List Char), ['s'], ['m', 's'], ['u', 's'], ['B'],
      ['K', 'B'], ['M', 'B'], ['G', 'B'], ['%'], ['c']]) :
    reduceValue (cs ++ u) = .ok (some ((digitsToNat cs : ℚ))) := by
  obtain ⟨d, t, hrev⟩ : ∃ d t, cs.reverse = d :: t := by
    rcases hcs : cs.reverse with _ | ⟨d, t⟩
    · exact absurd (by simpa using congrArg List.reverse hcs) hne
    · exact ⟨d, t, rfl⟩
  have hdmem : d ∈ cs :=
    List.mem_reverse.mp (by rw [hrev]; exact List.mem_cons_self d t)
  have hdmore := digit_char_more (hd d hdmem)
  have hgpf : goParseFloat cs = some ((digitsToNat cs : ℚ)) :=
    goParseFloat_digits cs hne hd
  fin_cases hu <;>
  · rw [reduceValue_eq_reduceTruncated _
        (by intro ch hch
            rcases List.mem_append.mp hch with hin | hin
            · exact (digit_char_more (hd ch hin)).1
            · first
              | (fin_cases hin <;> decide)
              | cases hin)
        (by intro hch
            rcases List.mem_append.mp hch with hin | hin
            · exact (digit_char_more (hd ';' hin)).2.1 rfl
            · exact absurd hin (by decide))]
    rw [reduceTruncated_ok _ cs
        (by cases cs with
            | nil => exact absurd rfl hne
            | cons a l => rfl)
        (by first
          | (rw [List.append_nil]
             exact stripUnit_plain cs d t hrev hdmore.2.2.1 hdmore.2.2.2.1
               hdmore.2.2.2.2.1 hdmore.2.2.2.2.2.1)
          | exact stripUnit_s cs d t hrev hdmore.2.2.2.2.2.2.1
              hdmore.2.2.2.2.2.2.2.1
          | exact stripUnit_ms cs
          | exact stripUnit_us cs
          | exact stripUnit_B cs d t hrev hdmore.2.2.2.2.2.2.2.2.1
              hdmore.2.2.2.2.2.2.2.2.2.1 hdmore.2.2.2.2.2.2.2.2.2.2
          | exact stripUnit_KB cs
          | exact stripUnit_MB cs
          | exact stripUnit_GB cs
          | exact stripUnit_pct cs
          | exact stripUnit_ctr cs), hgpf]

/-- The float model on `100`. -/
theorem gpf_hundred : goParseFloat "100".data = some 100 := by
  rw [goParseFloat_digits "100".data (by decide) (by decide),
    show digitsToNat "100".data = 100 from by decide]
  norm_num

/-- The float model on `5`. -/
theorem gpf_five : goParseFloat "5".data = some 5 := by
  rw [goParseFloat_digits "5".data (by decide) (by decide),
    show digitsToNat "5".data = 5 from by decide]
  norm_num

/-- The float model on `10`. -/
theorem gpf_ten : goParseFloat "10".data = some 10 := by
  rw [goParseFloat_digits "10".data (by decide) (by decide),
    show digitsToNat "10".data = 10 from by decide]
  norm_num

/-- The float model on the fractional literal `0.5`. -/
theorem gpf_half : goParseFloat ['0', '.', '5'] = some (1 / 2 : ℚ) := by
  have e3 : List.dropWhile Char.isDigit ['0', '.', '5'] = ['.', '5'] := by decide
  have e4 : List.takeWhile Char.isDigit ['0', '.', '5'] = ['0'] := by decide
  have e1 : List.takeWhile notExp ['0', '.', '5'] = ['0', '.', '5'] := by decide
  have e2 : List.dropWhile notExp ['0', '.', '5'] = [] := by decide
  have d1 : digitsToNat ['0'] = 0 := by decide
  have d2 : digitsToNat ['5'] = 5 := by decide
  rw [goParseFloat]
  simp only [List.headD_cons,
    if_neg (by decide : ¬(('0' : Char) = '-' ∨ ('0' : Char) = '+')),
    if_neg (by decide : ¬('0' : Char) = '-'), e1, e2]
  rw [parseMantissa]
  simp only [e3, e4]
  rw [if_pos (by decide)]
  simp only [d1, d2]
  norm_num

end Agent

/-- C3: the spec says the exit code is mapped through the 0-3 enum with
every other code becoming UNKNOWN, and the code's own String method
treats states outside 0-3 as impossible (it panics there); but both
parsers cast the exit code into the state unchanged, so exit code 4
yields state 4, not UNKNOWN — the parsed state then crashes the String
method every plugin report goes through. -/
theorem C3_exit_code_cast :
    Agent.parseNagiosOutput 4 "ok" 0 =
      .ok ⟨4, "ok", none, none, 0⟩ ∧
    Agent.parseErrplaneOutput Agent.decodeEmptyArray 4 "ok | []" 0 =
      .ok ⟨4, "ok", some [], none, 0⟩ ∧
    (4 : Int) ≠ Agent.UNKNOWN ∧
    Agent.stateString 4 = none := by
  refine ⟨?_, ?_, by decide, by decide⟩
  · rw [Agent.parseNagios_eval₁ 4 "ok" 0 "ok".data (by decide)]
    decide
  · rw [Agent.parseErrplaneOutput]
    decide

/-- C10: the numeric loop reads `value[len(value)-2]` as soon as the last
character is `s` or `B`; on the token `x=s` the remaining value is the
single character `s`, the index is -1, and the whole parse panics instead
of dropping the metric. -/
theorem C10_one_char_unit_panics :
    Agent.parseNagiosOutput 0 "ok | x=s" 0 = .panicked ∧
    Agent.stripUnit ['s'] = .panicked ∧
    Agent.stripUnit ['B'] = .panicked := by
  refine ⟨?_, by decide, by decide⟩
  rw [Agent.parseNagios_eval₂ 0 "ok | x=s" 0 "ok ".data " x=s".data (by decide)]
  rw [show Agent.tokenizeMetrics (Agent.trimSp " x=s".data) =
        [("x".data, "s".data)] from by decide]
  rw [Agent.buildMetricsMap_cons_panic "x".data "s".data [] (by decide)]

/-- C1: the spec promises that single-quoted metric names keep interior
spaces and that a doubled quote becomes a literal quote, so that
`'my metric'=1` yields a metric named `my metric` and `'it''s fine'=2`
one named `it's fine`.  In the code, the space case of the tokenizer
accumulates the quoted words into `metricName`, but the `=` case in
IN_QUOTED_FIELD then overwrites `metricName` with only the last token, so
everything before the final space inside the quotes is discarded: the two
lines parse to single metrics named `metric` and `fine`. -/
theorem C1_quoted_name_space_lost :
    Agent.parseNagiosOutput 0 "ok | 'my metric'=1" 0 =
      .ok ⟨0, "ok", none, some [("metric", 1)], 0⟩ ∧
    Agent.parseNagiosOutput 0 "ok | 'it''s fine'=2" 0 =
      .ok ⟨0, "ok", none, some [("fine", 2)], 0⟩ ∧
    ("metric" : String) ≠ "my metric" ∧
    ("fine" : String) ≠ "it's fine" := by
  refine ⟨?_, ?_, by decide, by decide⟩
  · rw [Agent.parseNagios_eval₂ 0 "ok | 'my metric'=1" 0 "ok ".data
          " 'my metric'=1".data (by decide)]
    rw [show Agent.tokenizeMetrics (Agent.trimSp " 'my metric'=1".data) =
          [("metric".data, "1".data)] from by decide]
    rw [Agent.buildMetricsMap_cons_some "metric".data "1".data 1 [] []
          (Agent.reduceValue_parsed "1".data "1".data ['1'] 1
            (by decide) (by decide) (by decide) Agent.gpf_one) rfl]
    rfl
  · rw [Agent.parseNagios_eval₂ 0 "ok | 'it''s fine'=2" 0 "ok ".data
          " 'it''s fine'=2".data (by decide)]
    rw [show Agent.tokenizeMetrics (Agent.trimSp " 'it''s fine'=2".data) =
          [("fine".data, "2".data)] from by decide]
    rw [Agent.buildMetricsMap_cons_some "fine".data "2".data 2 [] []
          (Agent.reduceValue_parsed "2".data "2".data ['2'] 2
            (by decide) (by decide) (by decide) Agent.gpf_two) rfl]
    rfl

/-- C7: for every nagios first line, dispatch is by pipe count — a line
with no `|` parses successfully as a status-only result whose message is
the trimmed line and whose metrics map is unset; a line with exactly one
`|` runs the perfdata pipeline on the right segment (producing a metrics
map, or panicking on the one-character-unit defect); a line with two or
more `|` characters is rejected with a parse error and no partial
result. -/
theorem C7_nagios_pipe_dispatch (e : Int) (line : String) (t : ℚ) :
    ((Agent.trimSp line.data).count '|' = 0 →
      Agent.parseNagiosOutput e line t =
        .ok ⟨e, String.mk (Agent.trimSp line.data), none, none, t⟩) ∧
    ((Agent.trimSp line.data).count '|' = 1 →
      (∃ m, Agent.parseNagiosOutput e line t =
          .ok ⟨e,
            String.mk (Agent.trimSp
              ((Agent.splitOnChar '|' (Agent.trimSp line.data)).headD [])),
            none, some m, t⟩) ∨
      Agent.parseNagiosOutput e line t = .panicked) ∧
    (2 ≤ (Agent.trimSp line.data).count '|' →
      Agent.parseNagiosOutput e line t = .err) := by
  refine ⟨fun h0 => ?_, fun h1 => ?_, fun h2 => ?_⟩
  · have hnm : '|' ∉ Agent.trimSp line.data := by
      rw [← List.count_eq_zero]
      exact h0
    rw [Agent.parseNagios_eval₁ e line t (Agent.trimSp line.data)
        (Agent.splitOnChar_of_not_mem '|' (Agent.trimSp line.data) hnm)]
    rw [Agent.trimSp_idem]
  · have hlen : (Agent.splitOnChar '|' (Agent.trimSp line.data)).length = 2 := by
      rw [Agent.splitOnChar_length, h1]
    obtain ⟨s0, s1, hsplit⟩ :
        ∃ s0 s1, Agent.splitOnChar '|' (Agent.trimSp line.data) = [s0, s1] := by
      rcases hs : Agent.splitOnChar '|' (Agent.trimSp line.data) with
        _ | ⟨a, rest⟩
      · exact absurd hs (Agent.splitOnChar_ne_nil _ _)
      · rcases rest with _ | ⟨b, rest2⟩
        · rw [hs] at hlen
          simp at hlen
        · rcases rest2 with _ | ⟨c, r3⟩
          · exact ⟨a, b, rfl⟩
          · rw [hs] at hlen
            simp at hlen
    rw [Agent.parseNagios_eval₂ e line t s0 s1 hsplit]
    rcases hb : Agent.buildMetricsMap (Agent.tokenizeMetrics (Agent.trimSp s1))
        with m | _ | _
    · refine Or.inl ⟨m, ?_⟩
      rw [hsplit]
      rfl
    · exact absurd hb (Agent.buildMetricsMap_ne_err _)
    · exact Or.inr rfl
  · apply Agent.parseNagios_eval₃
    rw [Agent.splitOnChar_length]
    omega

/-- C7 witness: a status-only line, a one-pipe line, and a two-pipe
line, all at concrete inputs. -/
theorem C7_witness :
    Agent.parseNagiosOutput 0 "ok" 0 = .ok ⟨0, "ok", none, none, 0⟩ ∧
    ((∃ m, Agent.parseNagiosOutput 0 "ok | a=" 0 =
        .ok ⟨0, "ok", none, some m, 0⟩) ∨
      Agent.parseNagiosOutput 0 "ok | a=" 0 = .panicked) ∧
    Agent.parseNagiosOutput 0 "a|b|c" 0 = .err := by
  refine ⟨?_, ?_, ?_⟩
  · exact (C7_nagios_pipe_dispatch 0 "ok" 0).1 (by decide)
  · exact (C7_nagios_pipe_dispatch 0 "ok | a=" 0).2.1 (by decide)
  · exact (C7_nagios_pipe_dispatch 0 "a|b|c" 0).2.2 (by decide)

/-- C2 (amended): parseErrplaneOutput splits the trimmed line on every
`|` and takes segment index 1 — the text between the first and second
pipe — as the JSON segment.  A line containing no `|` at all makes the
index access panic (it is not a returned parse error); when the segment
exists, a decoding failure returns a parse error with no partial metrics,
and a decoding success returns the trimmed left segment as the message
with `points` set and `metrics` unset. -/
theorem C2_errplane_amended (decode : String → Option (List Agent.JsonPoints))
    (e : Int) (line : String) (t : ℚ) :
    ('|' ∉ Agent.trimSp line.data →
      Agent.parseErrplaneOutput decode e line t = .panicked) ∧
    (∀ seg, (Agent.splitOnChar '|' (Agent.trimSp line.data)).get? 1 = some seg →
      decode (String.mk (Agent.trimSp seg)) = none →
      Agent.parseErrplaneOutput decode e line t = .err) ∧
    (∀ seg ws,
      (Agent.splitOnChar '|' (Agent.trimSp line.data)).get? 1 = some seg →
      decode (String.mk (Agent.trimSp seg)) = some ws →
      Agent.parseErrplaneOutput decode e line t =
        .ok ⟨e,
          String.mk (Agent.trimSp
            ((Agent.splitOnChar '|' (Agent.trimSp line.data)).headD [])),
          some ws, none, t⟩) := by
  refine ⟨fun h0 => ?_, fun seg hseg hdec => ?_, fun seg ws hseg hdec => ?_⟩
  · rw [Agent.parseErrplaneOutput,
      Agent.splitOnChar_of_not_mem '|' (Agent.trimSp line.data) h0]
    rfl
  · rw [Agent.parseErrplaneOutput]
    rw [hseg]
    simp only [hdec]
  · rw [Agent.parseErrplaneOutput]
    rw [hseg]
    simp only [hdec]

/-- C2 counterexample: with a decoder that (like the real one) accepts
exactly `[]`, the errplane line `ok` — no pipe at all — panics instead of
returning the parse error the claim promises, and the line
`ok | [] | x` succeeds by decoding only the middle segment `[]`, although
everything right of the first pipe (`[] | x`) is not decodable, where the
claim promises a parse error. -/
theorem C2_counterexample :
    Agent.parseErrplaneOutput Agent.decodeEmptyArray 0 "ok" 0 = .panicked ∧
    Agent.parseErrplaneOutput Agent.decodeEmptyArray 0 "ok | [] | x" 0 =
      .ok ⟨0, "ok", some [], none, 0⟩ ∧
    Agent.decodeEmptyArray "[] | x" = none := by
  decide

/-- C2 witness: the amended theorem applied at concrete lines — a
pipe-free line panics, a bad JSON segment is an error, a good one
succeeds. -/
theorem C2_witness :
    Agent.parseErrplaneOutput Agent.decodeEmptyArray 0 "ok" 0 = .panicked ∧
    Agent.parseErrplaneOutput Agent.decodeEmptyArray 0 "ok | nope" 0 = .err ∧
    Agent.parseErrplaneOutput Agent.decodeEmptyArray 0 "ok | []" 0 =
      .ok ⟨0, "ok", some [], none, 0⟩ := by
  refine ⟨?_, ?_, ?_⟩
  · exact (C2_errplane_amended Agent.decodeEmptyArray 0 "ok" 0).1 (by decide)
  · exact (C2_errplane_amended Agent.decodeEmptyArray 0 "ok | nope" 0).2.1
      " nope".data (by decide) (by decide)
  · exact (C2_errplane_amended Agent.decodeEmptyArray 0 "ok | []" 0).2.2
      " []".data [] (by decide) (by decide)

/-- C8 (amended): for a fixed clock reading the parser is a pure function
of format, exit code and line — and the clock reading influences nothing
but the timestamp field: the timestamp-erased result is identical across
any two clock readings, and the timestamp of a successful parse is
exactly the clock reading passed in.  Two runs at different instants
therefore differ in the timestamp field alone, not bit-identically as
claimed. -/
theorem C8_parse_deterministic_modulo_clock
    (decode : String → Option (List Agent.JsonPoints)) (fmt : String)
    (e : Int) (line : String) (t₁ t₂ : ℚ) :
    Agent.coreR (Agent.parsePluginOutput decode fmt e line t₁) =
      Agent.coreR (Agent.parsePluginOutput decode fmt e line t₂) ∧
    (∀ o, Agent.parsePluginOutput decode fmt e line t₁ = .ok o →
      o.timestamp = t₁) := by
  constructor
  · rw [Agent.parsePluginOutput, Agent.parsePluginOutput]
    split_ifs
    · exact Agent.nagios_coreR_time_irrelevant e line t₁ t₂
    · exact Agent.errplane_coreR_time_irrelevant decode e line t₁ t₂
    · rfl
  · intro o ho
    rw [Agent.parsePluginOutput] at ho
    split_ifs at ho
    · exact Agent.nagios_timestamp_is_now e line t₁ o ho
    · exact Agent.errplane_timestamp_is_now decode e line t₁ o ho

/-- C8 counterexample: the same format, exit code and line parsed at two
different instants yield different PluginOutput values — the timestamp
field differs — so parsing is not a function of (format, exit code, line)
alone and re-running it later is not bit-identical. -/
theorem C8_counterexample :
    Agent.parsePluginOutput Agent.decodeEmptyArray "nagios" 0 "ok" 0 ≠
      Agent.parsePluginOutput Agent.decodeEmptyArray "nagios" 0 "ok" 1 := by
  decide

/-- C8 witness: the amended theorem at a concrete nagios line and two
concrete instants. -/
theorem C8_witness :
    Agent.coreR (Agent.parsePluginOutput Agent.decodeEmptyArray "nagios" 0 "ok" 0) =
      Agent.coreR (Agent.parsePluginOutput Agent.decodeEmptyArray "nagios" 0 "ok" 1) ∧
    (∀ o, Agent.parsePluginOutput Agent.decodeEmptyArray "nagios" 0 "ok" 0 = .ok o →
      o.timestamp = 0) :=
  C8_parse_deterministic_modulo_clock Agent.decodeEmptyArray "nagios" 0 "ok" 0 1

/-- C9: in the merged registry, a custom plugin always shadows a bundled
plugin of the same name wholesale — the merged map binds the name to the
custom metadata with its isCustom flag forced true, never a
field-by-field mix — names absent from the custom set keep their bundled
binding, and (keys being unique on both sides, as Go maps guarantee)
every name is bound at most once in the merged result. -/
theorem C9_registry_merge (bundled custom : List (String × Agent.PluginMetadata))
    (hc : (custom.map Prod.fst).Nodup) :
    (∀ name cm, custom.lookup name = some cm →
      (Agent.mergeCustomPlugins bundled custom).lookup name =
        some { cm with isCustom := true }) ∧
    (∀ name, custom.lookup name = none →
      (Agent.mergeCustomPlugins bundled custom).lookup name =
        bundled.lookup name) ∧
    ((bundled.map Prod.fst).Nodup →
      ((Agent.mergeCustomPlugins bundled custom).map Prod.fst).Nodup) := by
  induction custom generalizing bundled with
  | nil =>
    exact ⟨fun name cm hcm => by simp at hcm, fun name _ => rfl, fun hb => hb⟩
  | cons p rest ih =>
    obtain ⟨k, m⟩ := p
    rw [List.map_cons, List.nodup_cons] at hc
    obtain ⟨hk, hrest⟩ := hc
    have hmerge : Agent.mergeCustomPlugins bundled ((k, m) :: rest) =
        Agent.mergeCustomPlugins
          (Agent.mset bundled k { m with isCustom := true }) rest := rfl
    obtain ⟨ih1, ih2, ih3⟩ :=
      ih (Agent.mset bundled k { m with isCustom := true }) hrest
    have hrestk : rest.lookup k = none :=
      List.lookup_eq_none_iff.mpr
        (fun q hq => bne_iff_ne.mpr
          (fun he => hk (by rw [he]; exact List.mem_map.mpr ⟨q, hq, rfl⟩)))
    refine ⟨fun name cm hcm => ?_, fun name hnone => ?_, fun hb => ?_⟩
    · rw [List.lookup_cons] at hcm
      by_cases hn : name = k
      · subst hn
        rw [beq_self_eq_true] at hcm
        cases hcm
        rw [hmerge, ih2 name hrestk]
        exact Agent.lookup_mset_self bundled name _
      · rw [beq_eq_false_iff_ne.mpr hn] at hcm
        rw [hmerge]
        exact ih1 name cm hcm
    · rw [List.lookup_cons] at hnone
      by_cases hn : name = k
      · subst hn
        rw [beq_self_eq_true] at hnone
        cases hnone
      · rw [beq_eq_false_iff_ne.mpr hn] at hnone
        rw [hmerge, ih2 name hnone]
        exact Agent.lookup_mset_ne bundled k _ name hn
    · rw [hmerge]
      exact ih3 (Agent.keys_mset_nodup bundled k _ hb)

/-- C9 witness: one bundled and one custom plugin sharing the name `cpu`:
the merged registry returns the custom metadata with isCustom true, an
unshared bundled name survives, and the merged keys are unique. -/
theorem C9_witness :
    (Agent.mergeCustomPlugins
        [("cpu", ⟨"cpu", "/plugins/v1/cpu", "nagios", [], false⟩),
         ("mem", ⟨"mem", "/plugins/v1/mem", "nagios", [], false⟩)]
        [("cpu", ⟨"cpu", "/custom/cpu", "errplane", ["x"], false⟩)]).lookup "cpu" =
      some ⟨"cpu", "/custom/cpu", "errplane", ["x"], true⟩ ∧
    (Agent.mergeCustomPlugins
        [("cpu", ⟨"cpu", "/plugins/v1/cpu", "nagios", [], false⟩),
         ("mem", ⟨"mem", "/plugins/v1/mem", "nagios", [], false⟩)]
        [("cpu", ⟨"cpu", "/custom/cpu", "errplane", ["x"], false⟩)]).lookup "mem" =
      some ⟨"mem", "/plugins/v1/mem", "nagios", [], false⟩ ∧
    ((Agent.mergeCustomPlugins
        [("cpu", ⟨"cpu", "/plugins/v1/cpu", "nagios", [], false⟩),
         ("mem", ⟨"mem", "/plugins/v1/mem", "nagios", [], false⟩)]
        [("cpu", ⟨"cpu", "/custom/cpu", "errplane", ["x"], false⟩)]).map
          Prod.fst).Nodup := by
  have h := C9_registry_merge
    [("cpu", ⟨"cpu", "/plugins/v1/cpu", "nagios", [], false⟩),
     ("mem", ⟨"mem", "/plugins/v1/mem", "nagios", [], false⟩)]
    [("cpu", ⟨"cpu", "/custom/cpu", "errplane", ["x"], false⟩)]
    (by decide)
  refine ⟨?_, ?_, h.2.2 (by decide)⟩
  · exact h.1 "cpu" ⟨"cpu", "/custom/cpu", "errplane", ["x"], false⟩ (by decide)
  · exact h.2.1 "mem" (by decide)

/-- C5: the Rate Tracker step — the first-ever update for a key stores
the current output and emits no rate; the stored entry is replaced with
the current output unconditionally; on a subsequent update with the
previous output present, every rate-eligible metric name found in both
the previous and the current metric maps is reported with rate
`(current - previous) / (current.timestamp - previous.timestamp)`, and a
name missing from either side yields no rate entry. -/
theorem C5_rate_tracker (cache : String → Option Agent.PluginOutput)
    (key : String) (output : Agent.PluginOutput)
    (eligible : String → Bool) (curMetrics : List (String × ℚ))
    (hout : output.metrics = some curMetrics) :
    (cache key = none →
      (Agent.rateUpdate cache key output
          (Agent.currentValuesNagios eligible curMetrics)).2 = []) ∧
    ((Agent.rateUpdate cache key output
        (Agent.currentValuesNagios eligible curMetrics)).1 key = some output) ∧
    (∀ prev, cache key = some prev →
      ((prev.metrics.getD []).map Prod.fst).Nodup →
      (∀ name pv c, (prev.metrics.getD []).lookup name = some pv →
        curMetrics.lookup name = some c → eligible name = true →
        (Agent.rateUpdate cache key output
            (Agent.currentValuesNagios eligible curMetrics)).2.lookup name =
          some ((c - pv) / (output.timestamp - prev.timestamp))) ∧
      (∀ name, ((prev.metrics.getD []).lookup name = none ∨
          curMetrics.lookup name = none) →
        (Agent.rateUpdate cache key output
            (Agent.currentValuesNagios eligible curMetrics)).2.lookup name =
          none)) := by
  refine ⟨fun hmiss => ?_, ?_, fun prev hhit hnd => ⟨?_, ?_⟩⟩
  · simp [Agent.rateUpdate, hmiss]
  · rcases hck : cache key with _ | prev <;> simp [Agent.rateUpdate, hck]
  · intro name pv c hpv hc hel
    simp only [Agent.rateUpdate, hhit]
    rw [Agent.lookup_rates_bind _ _ _ hnd name, hpv]
    simp [Agent.lookup_currentValues, hel, hc]
  · intro name hdisj
    simp only [Agent.rateUpdate, hhit]
    rw [Agent.lookup_rates_bind _ _ _ hnd name]
    rcases hdisj with hnone | hnone
    · rw [hnone]
      rfl
    · rcases hq : (prev.metrics.getD []).lookup name with _ | pv <;>
        simp [hq, Agent.lookup_currentValues, hnone]

/-- C5 witness: metric `x` valued 10 then 20 four seconds apart yields a
rate of 5/2 = 2.5 per second, and the cache entry is replaced with the
current output. -/
theorem C5_witness :
    (Agent.rateUpdate
        (fun k => if k = Agent.cacheKey "p" "inst"
          then some Agent.prevOutSample else none)
        (Agent.cacheKey "p" "inst") Agent.currOutSample
        (Agent.currentValuesNagios (fun _ => true) [("x", 20)])).2.lookup "x" =
      some (5 / 2 : ℚ) ∧
    (Agent.rateUpdate
        (fun k => if k = Agent.cacheKey "p" "inst"
          then some Agent.prevOutSample else none)
        (Agent.cacheKey "p" "inst") Agent.currOutSample
        (Agent.currentValuesNagios (fun _ => true) [("x", 20)])).1
      (Agent.cacheKey "p" "inst") = some Agent.currOutSample := by
  have h := C5_rate_tracker
    (fun k => if k = Agent.cacheKey "p" "inst"
      then some Agent.prevOutSample else none)
    (Agent.cacheKey "p" "inst") Agent.currOutSample (fun _ => true)
    [("x", 20)] rfl
  refine ⟨?_, h.2.1⟩
  have h3 := (h.2.2 Agent.prevOutSample (by simp) (by decide)).1 "x" 10 20
    (by decide) (by decide) rfl
  rw [h3]
  norm_num [Agent.currOutSample, Agent.prevOutSample]

/-- C6 counterexample: on the line `ok | a=1 x=s` the token `x=s` has a
value the described reduction would drop after unit stripping and failed
float parsing, and the claim promises the rest of the line's metrics
(`a` valued 1) are still returned; the code instead reads index -1 and
the whole parse panics, returning nothing. -/
theorem C6_counterexample :
    Agent.parseNagiosOutput 0 "ok | a=1 x=s" 0 = .panicked := by
  decide

/-- C6 (amended): each recognized token's value is reduced by stripping
everything from the first `;`, skipping empty values, stripping a known
unit suffix — a two-character unit (`ms`, `us`, `KB`, `MB`, `GB`) as a
whole, else a one-character unit (`s`, `B`, `%`, `c`) — and float-parsing
the remainder, so `time=100ms;;;;` yields 100, `time=5s` yields 5,
`load=0.5%` yields 0.5 and `mem=10MB` yields 10; a value that fails float
parsing after stripping drops only that metric while the rest of the
line is returned; the general statement holds for every nonempty
all-digit magnitude under every recognized unit suffix or none — except
that a value reduced to the single character `s` or `B` does not reach
the float parser but panics on an out-of-range index. -/
theorem C6_value_reduction (e : Int) (t : ℚ) (cs : List Char)
    (hne : cs ≠ []) (hd : ∀ ch ∈ cs, ch ∈ Agent.digitChars) (u : List Char)
    (hu : u ∈ [([] : List Char), ['s'], ['m', 's'], ['u', 's'], ['B'],
      ['K', 'B'], ['M', 'B'], ['G', 'B'], ['%'], ['c']]) :
    Agent.parseNagiosOutput e "ok | time=100ms;;;;" t =
      .ok ⟨e, "ok", none, some [("time", 100)], t⟩ ∧
    Agent.parseNagiosOutput e "ok | time=5s" t =
      .ok ⟨e, "ok", none, some [("time", 5)], t⟩ ∧
    Agent.parseNagiosOutput e "ok | load=0.5%" t =
      .ok ⟨e, "ok", none, some [("load", 1 / 2)], t⟩ ∧
    Agent.parseNagiosOutput e "ok | mem=10MB" t =
      .ok ⟨e, "ok", none, some [("mem", 10)], t⟩ ∧
    Agent.parseNagiosOutput e "ok | a=1 b=abc" t =
      .ok ⟨e, "ok", none, some [("a", 1)], t⟩ ∧
    Agent.reduceValue (cs ++ u) = .ok (some ((Agent.digitsToNat cs : ℚ))) ∧
    Agent.reduceValue ['s'] = .panicked := by
  refine ⟨?_, ?_, ?_, ?_, ?_,
    Agent.reduceValue_digits_unit cs hne hd u hu, by decide⟩
  · rw [Agent.parseNagios_eval₂ e _ t "ok ".data " time=100ms;;;;".data
        (by decide)]
    rw [show Agent.tokenizeMetrics (Agent.trimSp " time=100ms;;;;".data) =
          [("time".data, "100ms;;;;".data)] from by decide]
    rw [Agent.buildMetricsMap_cons_some "time".data "100ms;;;;".data 100 [] []
          (Agent.reduceValue_parsed _ "100ms".data "100".data 100
            (by decide) (by decide) (by decide) Agent.gpf_hundred) rfl]
    rfl
  · rw [Agent.parseNagios_eval₂ e _ t "ok ".data " time=5s".data (by decide)]
    rw [show Agent.tokenizeMetrics (Agent.trimSp " time=5s".data) =
          [("time".data, "5s".data)] from by decide]
    rw [Agent.buildMetricsMap_cons_some "time".data "5s".data 5 [] []
          (Agent.reduceValue_parsed _ "5s".data "5".data 5
            (by decide) (by decide) (by decide) Agent.gpf_five) rfl]
    rfl
  · rw [Agent.parseNagios_eval₂ e _ t "ok ".data " load=0.5%".data (by decide)]
    rw [show Agent.tokenizeMetrics (Agent.trimSp " load=0.5%".data) =
          [("load".data, "0.5%".data)] from by decide]
    rw [Agent.buildMetricsMap_cons_some "load".data "0.5%".data (1 / 2) [] []
          (Agent.reduceValue_parsed _ "0.5%".data ['0', '.', '5'] (1 / 2)
            (by decide) (by decide) (by decide) Agent.gpf_half) rfl]
    rfl
  · rw [Agent.parseNagios_eval₂ e _ t "ok ".data " mem=10MB".data (by decide)]
    rw [show Agent.tokenizeMetrics (Agent.trimSp " mem=10MB".data) =
          [("mem".data, "10MB".data)] from by decide]
    rw [Agent.buildMetricsMap_cons_some "mem".data "10MB".data 10 [] []
          (Agent.reduceValue_parsed _ "10MB".data "10".data 10
            (by decide) (by decide) (by decide) Agent.gpf_ten) rfl]
    rfl
  · rw [Agent.parseNagios_eval₂ e _ t "ok ".data " a=1 b=abc".data (by decide)]
    rw [show Agent.tokenizeMetrics (Agent.trimSp " a=1 b=abc".data) =
          [("a".data, " 1".data), ("b".data, "abc".data)] from by decide]
    rw [Agent.buildMetricsMap_cons_some "a".data " 1".data 1
          [("b".data, "abc".data)] []
          (Agent.reduceValue_parsed _ "1".data "1".data 1
            (by decide) (by decide) (by decide) Agent.gpf_one)
          (by rw [Agent.buildMetricsMap_cons_none "b".data "abc".data []
                (Agent.reduceValue_dropped _ "abc".data "ab".data
                  (by decide) (by decide) (by decide) (by decide))]
              rfl)]
    rfl

/-- C6 witness: the amended theorem at the digit string `42` under the
`KB` unit, with its concrete-line conjuncts. -/
theorem C6_witness :
    Agent.parseNagiosOutput 0 "ok | time=100ms;;;;" 0 =
      .ok ⟨0, "ok", none, some [("time", 100)], 0⟩ ∧
    Agent.reduceValue (['4', '2'] ++ ['K', 'B']) = .ok (some 42) := by
  have h := C6_value_reduction 0 0 ['4', '2'] (by decide) (by decide)
    ['K', 'B'] (by decide)
  refine ⟨h.1, ?_⟩
  rw [h.2.2.2.2.2.1, show Agent.digitsToNat ['4', '2'] = 42 from by decide]
  norm_num
